import Mathlib

/-!
# Verification of the Bunny.net libdns adapter

A shallow embedding of the zone-resolution, record-codec and
record-reconciliation logic of the `libdns/bunny` Go package
(`client.go`, `provider.go`), together with theorems settling the
specification claims about it.

Modelling conventions:
* Go strings are modelled at the character level (`String` over
  `List Char`); all names handled by this adapter are ASCII, where Go's
  byte indexing and Lean's character indexing agree.
* Go `time.Duration` is an `Int` of nanoseconds; `int(d.Seconds())`
  truncates toward zero, modelled with `Int.tdiv` (exact on the whole- and
  half-second values appearing in this development).
* The HTTP transport is assumed reliable (it is explicitly out of scope in
  the design: "assumed a reliable HTTP client"); each network response that
  an operation consumes is passed in as an explicit oracle argument, and
  the mutating calls an operation issues are collected in an explicit
  trace of operations.
* Fallible Go functions returning `(T, error)` become `Except String T`;
  interpolated details (record names, status codes) are elided from the
  error messages, which are otherwise those of the source.
-/

/-- Decidable equality for `Except`, so that concrete runs of the
embedded operations can be checked by `decide`. -/
instance {ε α : Type} [DecidableEq ε] [DecidableEq α] : DecidableEq (Except ε α)
  | .error x, .error y =>
    if h : x = y then .isTrue (by rw [h]) else .isFalse (by simp [h])
  | .error _, .ok _ => .isFalse (by simp)
  | .ok _, .error _ => .isFalse (by simp)
  | .ok x, .ok y =>
    if h : x = y then .isTrue (by rw [h]) else .isFalse (by simp [h])

namespace Bunny

/-! ## Character/string primitives mirroring Go's `strings` package -/

/-- Lower-case an ASCII letter, mirroring the effect of Go's
`strings.ToLower`/`strings.EqualFold` on the ASCII domain names this
adapter handles. -/
def asciiLower (c : Char) : Char :=
  if 'A' ≤ c ∧ c ≤ 'Z' then Char.ofNat (c.toNat + 32) else c

/-- Model of `strings.ToLower` (ASCII). -/
def strToLower (s : String) : String := ⟨s.data.map asciiLower⟩

/-- Model of `strings.EqualFold` (ASCII): equality up to letter case. -/
def equalFold (a b : String) : Bool := a.data.map asciiLower == b.data.map asciiLower

/-- Split a character list on a separator character; mirrors Go's
`strings.Split` with a one-character separator (always returns at least
one part; the empty list yields `[[]]`). -/
def chSplit (sep : Char) : List Char → List (List Char)
  | [] => [[]]
  | c :: cs =>
    let r := chSplit sep cs
    if c = sep then [] :: r
    else
      match r with
      | [] => [[c]]
      | h :: t => (c :: h) :: t

/-- Go `strings.Split(s, ".")`. -/
def strSplitDot (s : String) : List String := (chSplit '.' s.data).map String.mk

/-- Character-level interleaving of `'.'` between parts. -/
def chJoinDot : List (List Char) → List Char
  | [] => []
  | [x] => x
  | x :: y :: xs => x ++ '.' :: chJoinDot (y :: xs)

/-- Go `strings.Join(xs, ".")`. -/
def strJoinDot (xs : List String) : String := ⟨chJoinDot (xs.map String.data)⟩

/-- Go `strings.SplitN(s, ".", 3)`: at most three parts, the third carrying
the remainder of the string. -/
def strSplitDotN3 (s : String) : List String :=
  match strSplitDot s with
  | p0 :: p1 :: p2 :: p3 :: rest => [p0, p1, strJoinDot (p2 :: p3 :: rest)]
  | parts => parts

/-- Go `strings.HasSuffix`. -/
def hasSuf (s suf : String) : Bool := suf.data.isSuffixOf s.data

/-- Go `strings.TrimSuffix`: removes `suf` from the end of `s` when present,
otherwise returns `s` unchanged. -/
def trimSuf (s suf : String) : String :=
  if hasSuf s suf then ⟨s.data.take (s.data.length - suf.data.length)⟩ else s

/-- Go `strings.TrimPrefix(s, "_")`: removes one leading underscore. -/
def trimUnderscore (s : String) : String :=
  match s.data with
  | '_' :: rest => ⟨rest⟩
  | _ => s

/-- Go `domain[:k]` (character-level model of the byte slice). -/
def strTake (s : String) (k : Nat) : String := ⟨s.data.take k⟩

/-- Character-level length (equals Go's byte length on ASCII strings). -/
def strLen (s : String) : Nat := s.data.length

/-- Nanoseconds per second: the unit conversion used between
`time.Duration` and the vendor API's integer-second TTLs. -/
def nsPerSec : Int := 1000000000

/-- Model of Go's `int(d.Seconds())` on a `time.Duration` of `d`
nanoseconds: truncation toward zero. -/
def durSeconds (d : Int) : Int := d.tdiv nsPerSec

/-! ## Data model (`client.go`) -/

/-- The `bunnyZone` struct: a vendor zone as returned by the zone listing/search
endpoints, plus the request-scoped `nameBase` (excluded from JSON by its
`json:"-"` tag, hence always the zero value `""` on the wire). -/
structure bunnyZone where
  id : Int
  domain : String
  dnsSecEnabled : Bool := false
  nameBase : String := ""
deriving Repr, DecidableEq

/-- The `bunnyRecord` struct: the vendor wire record. Integer fields keep Go's `int`
/ `int32` reading as unbounded `Int` (casts that can wrap are modelled at
the point of the cast). -/
structure bunnyRecord where
  id : Int := 0
  type : Int
  ttl : Int := 0
  value : String := ""
  name : String := ""
  weight : Int := 0
  priority : Int := 0
  flags : Int := 0
  tag : String := ""
  port : Int := 0
deriving Repr, DecidableEq

/-! ## The external libdns record model

The generic record interfaces are external collaborators (spec §1: they
are "consumed as given"): a record exposes `(type, name, data, ttl)`
through `RR()`, and the typed variants CAA, MX and SRV expose their
type-specific fields. The model below follows that contract.
* `simple` stands for the plainly-parsed records — `libdns.Address`
  (types "A"/"AAAA", `data` being the canonical address text),
  `libdns.CNAME`, `libdns.NS`, `libdns.TXT` — as well as the raw
  `libdns.RR` passthrough used for the vendor-specific types; for all of
  these, `RR()` exposes the fields unchanged and `RR.Parse()`
  reconstructs the record from them.
* `ttl` fields are `time.Duration` nanoseconds.
* `flags` is a `uint8` value, the 16-bit fields are `uint16` values;
  they are carried as `Nat`, the casts in the codec are explicit.
* `srv.RR()` presents the name in the `_service._transport.name`
  convention that the spec's SRV handling (§4.2) is written against. -/
inductive LibdnsRecord where
  | simple (typ name : String) (ttl : Int) (data : String)
  | caa (name : String) (ttl : Int) (flags : Nat) (tag value : String)
  | mx (name : String) (ttl : Int) (preference : Nat) (target : String)
  | srv (service transport name : String) (ttl : Int)
      (priority weight port : Nat) (target : String)
deriving Repr, DecidableEq

/-- The `(type, name, data, ttl)` view every libdns record exposes. -/
structure RR where
  type : String
  name : String
  data : String
  ttl : Int
deriving Repr, DecidableEq

/-- The `record.RR()` view of the external libdns collaborator. The `data` texts of
the typed variants are their documented presentation forms; the adapter
code under verification never reads them (it overrides `Value` from the
typed fields for CAA/MX/SRV). -/
def LibdnsRecord.rr : LibdnsRecord → RR
  | .simple t n ttl d => ⟨t, n, d, ttl⟩
  | .caa n ttl f tag v => ⟨"CAA", n, toString f ++ " " ++ tag ++ " " ++ v, ttl⟩
  | .mx n ttl p t => ⟨"MX", n, toString p ++ " " ++ t, ttl⟩
  | .srv s tr n ttl p w po t =>
      ⟨"SRV", "_" ++ s ++ "._" ++ tr ++ "." ++ n,
        toString p ++ " " ++ toString w ++ " " ++ toString po ++ " " ++ t, ttl⟩

/-! ## Type code table (`client.go`) -/

/-- Go `toBunnyType`: generic type name to vendor integer code. -/
def toBunnyType : String → Except String Int
  | "A" => .ok 0
  | "AAAA" => .ok 1
  | "CNAME" => .ok 2
  | "TXT" => .ok 3
  | "MX" => .ok 4
  | "Redirect" => .ok 5
  | "Flatten" => .ok 6
  | "PullZone" => .ok 7
  | "SRV" => .ok 8
  | "CAA" => .ok 9
  | "PTR" => .ok 10
  | "Script" => .ok 11
  | "NS" => .ok 12
  | _ => .error "unknown record type"

/-- Go `fromBunnyType`: vendor integer code to generic type name. -/
def fromBunnyType (t : Int) : Except String String :=
  if t = 0 then .ok "A"
  else if t = 1 then .ok "AAAA"
  else if t = 2 then .ok "CNAME"
  else if t = 3 then .ok "TXT"
  else if t = 4 then .ok "MX"
  else if t = 5 then .ok "Redirect"
  else if t = 6 then .ok "Flatten"
  else if t = 7 then .ok "PullZone"
  else if t = 8 then .ok "SRV"
  else if t = 9 then .ok "CAA"
  else if t = 10 then .ok "PTR"
  else if t = 11 then .ok "Script"
  else if t = 12 then .ok "NS"
  else .error "unknown record type ID"

/-! ## Record codec (`client.go`: `bunnyZone.bunnyRecord`,
`bunnyZone.libdnsRecord`) -/

/-- The name rewriting performed by `bunnyZone.bunnyRecord`: "@" becomes
the empty name, then a non-empty `nameBase` is appended. -/
def encodeName (nameBase name : String) : String :=
  let n := if name = "@" then "" else name
  if nameBase ≠ "" then
    (if n = "" then nameBase else n ++ "." ++ nameBase)
  else n

/-- Go `bunnyZone.bunnyRecord`: encode a generic record into vendor wire
form. `uint8`/`uint16` fields widen exactly into Go `int`/`int32`. -/
def bunnyZone.bunnyRecord (zone : bunnyZone) (record : LibdnsRecord) :
    Except String Bunny.bunnyRecord := do
  let rr := record.rr
  let rType ← toBunnyType rr.type
  let r : Bunny.bunnyRecord :=
    { type := rType
      name := encodeName zone.nameBase rr.name
      value := rr.data
      ttl := durSeconds rr.ttl }
  match record with
  | .caa _ _ f tag v => pure { r with flags := (f : Int), tag := tag, value := v }
  | .mx _ _ p t => pure { r with priority := (p : Int), value := t }
  | .srv _ _ _ _ p w po t =>
      pure { r with priority := (p : Int), weight := (w : Int), port := (po : Int), value := t }
  | _ => pure r

/-- The name rewriting performed by `bunnyZone.libdnsRecord`: strip a
non-empty `nameBase` (exact match clears the name, a `.nameBase` suffix is
trimmed), then an empty name becomes "@". -/
def decodeName (nameBase name : String) : String :=
  let n := if nameBase ≠ "" then
      (if name = nameBase then "" else trimSuf name ("." ++ nameBase))
    else name
  if n = "" then "@" else n

/-- Go's `uint8(i)` on an `int`: the low 8 bits. -/
def toUInt8 (i : Int) : Nat := (i.emod 256).toNat

/-- Go's `uint16(i)` on an `int32`: the low 16 bits. -/
def toUInt16 (i : Int) : Nat := (i.emod 65536).toNat

/-- Go `bunnyZone.libdnsRecord`: decode a vendor wire record into generic
form. The "A"/"AAAA"/"CNAME"/"NS"/"TXT" branch goes through the external
`RR.Parse()`, which reconstructs the typed record from the
`(type, name, data, ttl)` view. -/
def bunnyZone.libdnsRecord (zone : bunnyZone) (record : Bunny.bunnyRecord) :
    Except String LibdnsRecord := do
  let rType ← fromBunnyType record.type
  let name := decodeName zone.nameBase record.name
  let ttl : Int := record.ttl * nsPerSec
  if rType = "A" ∨ rType = "AAAA" ∨ rType = "CNAME" ∨ rType = "NS" ∨ rType = "TXT" then
    pure (.simple rType name ttl record.value)
  else if rType = "CAA" then
    pure (.caa name ttl (toUInt8 record.flags) record.tag record.value)
  else if rType = "MX" then
    pure (.mx name ttl (toUInt16 record.priority) record.value)
  else if rType = "SRV" then
    match strSplitDotN3 name with
    | [p0, p1] =>
        pure (.srv (trimUnderscore p0) (trimUnderscore p1) "@" ttl
          (toUInt16 record.priority) (toUInt16 record.weight) (toUInt16 record.port)
          record.value)
    | [p0, p1, p2] =>
        pure (.srv (trimUnderscore p0) (trimUnderscore p1) p2 ttl
          (toUInt16 record.priority) (toUInt16 record.weight) (toUInt16 record.port)
          record.value)
    | _ => throw "name does not contain enough fields"
  else
    pure (.simple rType name ttl record.value)

/-- Go `bunnyZone.filterBunnyRecords`: records of the listing sharing the
encoded `(name, type)` of the given record. -/
def bunnyZone.filterBunnyRecords (zone : bunnyZone) (haystack : List Bunny.bunnyRecord)
    (record : LibdnsRecord) : Except String (List Bunny.bunnyRecord) := do
  let needle ← zone.bunnyRecord record
  pure (haystack.filter (fun r => r.name == needle.name && r.type == needle.type))

/-! ## Zone resolution (`client.go`: `getBaseDomainNameGuesses`,
`Provider.getZone`) -/

/-- Go `getBaseDomainNameGuesses`: the candidate parent domains of `domain`,
most specific first — `join(parts[i:], ".")` for `i` from `0` to
`len(parts)-2` (the bare final label is never a guess); a domain of fewer
than two labels yields only itself. -/
def getBaseDomainNameGuesses (domain : String) : List String :=
  let parts := strSplitDot domain
  if parts.length < 2 then [domain]
  else (List.range (parts.length - 1)).map (fun i => strJoinDot (parts.drop i))

/-- The guess/zone scan of `getZone`: walk the guesses in order and for
each, scan the search result for a case-insensitive match on the zone's
apex domain; the first hit wins. -/
def findZoneMatch (guesses : List String) (zones : List bunnyZone) : Option bunnyZone :=
  match guesses with
  | [] => none
  | g :: gs =>
    match zones.find? (fun z => equalFold z.domain g) with
    | some z => some z
    | none => findZoneMatch gs zones

/-- The name-base attached to a matched zone by `getZone`: when the
requested domain is longer than the matched apex, the leading
`len(domain) - len(apex) - 1` characters of the domain, lower-cased. -/
def attachNameBase (domain : String) (z : bunnyZone) : bunnyZone :=
  if strLen domain > strLen z.domain then
    { z with nameBase := strToLower (strTake domain (strLen domain - strLen z.domain - 1)) }
  else z

/-- The pure heart of `getZone` on a cache miss: resolve `domain` against
the zones returned by the search endpoint. -/
def resolveZone (domain : String) (searchResult : List bunnyZone) : Option bunnyZone :=
  (findZoneMatch (getBaseDomainNameGuesses domain) searchResult).map (attachNameBase domain)

/-- The provider's only mutable state: the zone cache, keyed by the exact
requested domain string. -/
structure ProviderState where
  zones : List (String × bunnyZone) := []
deriving Repr, DecidableEq

/-- Go map lookup `p.zones[domain]`. -/
def lookupZone (cache : List (String × bunnyZone)) (domain : String) : Option bunnyZone :=
  (cache.find? (fun p => p.1 == domain)).map Prod.snd

/-- Go `Provider.getZone`: reject the empty domain, try the cache, otherwise
search (`searchResult` is the oracle for the single search request) and
resolve; a fresh resolution is cached under the exact requested domain.
The returned `Bool` records whether an HTTP request was issued. -/
def getZone (st : ProviderState) (domain : String) (searchResult : List bunnyZone) :
    Except String bunnyZone × ProviderState × Bool :=
  if domain = "" then (.error "domain is an empty string", st, false)
  else
    match lookupZone st.zones domain with
    | some zone => (.ok zone, st, false)
    | none =>
      match resolveZone domain searchResult with
      | some zone => (.ok zone, { st with zones := (domain, zone) :: st.zones }, true)
      | none => (.error "zone not found for domain", st, true)

/-! ## Record repository and reconciler (`client.go`) -/

/-- A mutating call issued against the vendor API. -/
inductive Op where
  | create (zoneId : Int) (req : Bunny.bunnyRecord)
  | update (zoneId : Int) (recId : Int) (req : Bunny.bunnyRecord)
  | del (zoneId : Int) (recId : Int)
deriving Repr, DecidableEq

/-- Go `Provider.createRecord`: encode, issue the create call, decode the
vendor's response (`serverResp`, which carries the assigned ID). -/
def createRecordM (zone : bunnyZone) (record : LibdnsRecord)
    (serverResp : Bunny.bunnyRecord) : Except String LibdnsRecord × List Op :=
  match zone.bunnyRecord record with
  | .error e => (.error e, [])
  | .ok req =>
    match zone.libdnsRecord serverResp with
    | .error e => (.error e, [.create zone.id req])
    | .ok result => (.ok result, [.create zone.id req])

/-- Go `Provider.updateRecord`: encode and issue the update call addressed
by vendor record ID. -/
def updateRecordM (zone : bunnyZone) (record : LibdnsRecord) (recId : Int) :
    Except String Unit × List Op :=
  match zone.bunnyRecord record with
  | .error e => (.error e, [])
  | .ok req => (.ok (), [.update zone.id recId req])

/-- Go `Provider.createOrUpdateRecord`: list (oracle `listing`), filter by
encoded `(name, type)`; no match creates, a unique match updates in place
returning the input record, more than one match is refused. -/
def createOrUpdateRecordM (zone : bunnyZone) (listing : List Bunny.bunnyRecord)
    (record : LibdnsRecord) (serverResp : Bunny.bunnyRecord) :
    Except String LibdnsRecord × List Op :=
  match zone.filterBunnyRecords listing record with
  | .error e => (.error e, [])
  | .ok matchingRecords =>
    if matchingRecords.length = 0 then createRecordM zone record serverResp
    else if matchingRecords.length > 1 then
      (.error "unexpectedly found more than 1 record", [])
    else
      match matchingRecords with
      | m :: _ =>
        (match updateRecordM zone record m.id with
         | (.error e, ops) => (.error e, ops)
         | (.ok _, ops) => (.ok record, ops))
      | [] => (.error "unexpectedly found more than 1 record", [])

/-- Go `Provider.deleteRecord`: list (oracle `listing`), filter by encoded
`(name, type)`; no match is a successful no-op, otherwise one delete call
addressed to the first match's vendor ID. -/
def deleteRecordM (zone : bunnyZone) (listing : List Bunny.bunnyRecord)
    (record : LibdnsRecord) : Except String Unit × List Op :=
  match zone.filterBunnyRecords listing record with
  | .error e => (.error e, [])
  | .ok matchingRecords =>
    match matchingRecords with
    | [] => (.ok (), [])
    | m :: _ => (.ok (), [.del zone.id m.id])

/-! ## Facade loops (`provider.go`: `AppendRecords`, `DeleteRecords`) -/

/-- The record loop of `Provider.AppendRecords` (`resp i` is the server's
response to the `i`-th create): create each record in order; the first
failure aborts, discarding the accumulated result list (`return nil, err`).
The result models Go's `([]libdns.Record, error)` pair as the list
returned (empty when `nil`) together with an optional error. -/
def appendRecordsGo (zone : bunnyZone) (resp : Nat → Bunny.bunnyRecord) :
    Nat → List LibdnsRecord → (List LibdnsRecord × Option String) × List Op
  | _, [] => (([], none), [])
  | i, r :: rs =>
    match createRecordM zone r (resp i) with
    | (.error e, ops) => (([], some e), ops)
    | (.ok newRec, ops) =>
      match appendRecordsGo zone resp (i + 1) rs with
      | ((_, some e), ops') => (([], some e), ops ++ ops')
      | ((newRecs, none), ops') => ((newRec :: newRecs, none), ops ++ ops')

/-- Go `Provider.AppendRecords` after the one-time zone resolution. -/
def AppendRecords (zone : bunnyZone) (resp : Nat → Bunny.bunnyRecord)
    (records : List LibdnsRecord) : (List LibdnsRecord × Option String) × List Op :=
  appendRecordsGo zone resp 0 records

/-- The record loop of `Provider.DeleteRecords` (`listing i` is the zone
listing the `i`-th `deleteRecord` fetches): delete each record in order,
aborting on the first failure. -/
def deleteRecordsGo (zone : bunnyZone) (listing : Nat → List Bunny.bunnyRecord) :
    Nat → List LibdnsRecord → Option String × List Op
  | _, [] => (none, [])
  | i, r :: rs =>
    match deleteRecordM zone (listing i) r with
    | (.error e, ops) => (some e, ops)
    | (.ok _, ops) =>
      match deleteRecordsGo zone listing (i + 1) rs with
      | (e?, ops') => (e?, ops ++ ops')

/-- Go `Provider.DeleteRecords` after the one-time zone resolution: on
success the *input* record list itself is returned; on failure `nil`
(modelled `none`) with the error. -/
def DeleteRecords (zone : bunnyZone) (listing : Nat → List Bunny.bunnyRecord)
    (records : List LibdnsRecord) :
    (Option (List LibdnsRecord) × Option String) × List Op :=
  match deleteRecordsGo zone listing 0 records with
  | (some e, ops) => ((none, some e), ops)
  | (none, ops) => ((some records, none), ops)

/-! ## Round-trip supporting definitions -/

/-- Encode then decode under the same zone: the codec round trip
toGeneric(zone, toVendor(zone, r)). -/
def roundTrip (zone : bunnyZone) (r : LibdnsRecord) : Except String LibdnsRecord :=
  (zone.bunnyRecord r).bind zone.libdnsRecord

/-- The supported generic record types: the plainly-parsed A / AAAA /
CNAME / NS / TXT records and the typed CAA / MX / SRV records (spec
§4.2). -/
def supportedRecord : LibdnsRecord → Bool
  | .simple t _ _ _ => t == "A" || t == "AAAA" || t == "CNAME" || t == "NS" || t == "TXT"
  | _ => true

/-- The TTL field of a generic record (nanoseconds). -/
def ttlOf : LibdnsRecord → Int
  | .simple _ _ ttl _ => ttl
  | .caa _ ttl _ _ _ => ttl
  | .mx _ ttl _ _ => ttl
  | .srv _ _ _ ttl _ _ _ _ => ttl

/-- The record name is not the empty string (the generic convention names
the apex "@"; the empty name is not a representable output of decoding). -/
def nameOk : LibdnsRecord → Bool
  | .simple _ n _ _ => n != ""
  | .caa n _ _ _ _ => n != ""
  | .mx n _ _ _ => n != ""
  | .srv _ _ _ _ _ _ _ _ => true

/-- For SRV records: the service and transport labels contain no dot (a
dotted label shifts the vendor-side name fields on decode). -/
def srvOk : LibdnsRecord → Bool
  | .srv s tr _ _ _ _ _ _ => decide ('.' ∉ s.data) && decide ('.' ∉ tr.data)
  | _ => true

/-- The numeric fields fit their Go types (uint8 flags, uint16
preference/priority/weight/port). -/
def rangeOk : LibdnsRecord → Bool
  | .caa _ _ f _ _ => decide (f < 256)
  | .mx _ _ p _ => decide (p < 65536)
  | .srv _ _ _ _ p w po _ => decide (p < 65536) && decide (w < 65536) && decide (po < 65536)
  | _ => true

/-! ## String lemmas -/

theorem strMk_data (s : String) : (⟨s.data⟩ : String) = s := by
  cases s
  rfl

theorem data_strMk (l : List Char) : (⟨l⟩ : String).data = l := rfl

theorem strLen_data (s : String) : strLen s = s.data.length := rfl

theorem chSplit_ne_nil (sep : Char) (l : List Char) : chSplit sep l ≠ [] := by
  cases l with
  | nil => simp [chSplit]
  | cons c cs =>
    simp only [chSplit]
    split
    · simp
    · split <;> simp

theorem chJoinDot_chSplit (l : List Char) : chJoinDot (chSplit '.' l) = l := by
  induction l with
  | nil => rfl
  | cons c cs ih =>
    simp only [chSplit]
    by_cases hc : c = '.'
    · subst hc
      simp only [if_pos rfl]
      obtain ⟨h, t, hr⟩ : ∃ h t, chSplit '.' cs = h :: t := by
        cases hcs : chSplit '.' cs with
        | nil => exact absurd hcs (chSplit_ne_nil _ _)
        | cons h t => exact ⟨h, t, rfl⟩
      rw [hr] at ih ⊢
      simpa [chJoinDot] using ih
    · simp only [if_neg hc]
      obtain ⟨h, t, hr⟩ : ∃ h t, chSplit '.' cs = h :: t := by
        cases hcs : chSplit '.' cs with
        | nil => exact absurd hcs (chSplit_ne_nil _ _)
        | cons h t => exact ⟨h, t, rfl⟩
      rw [hr] at ih ⊢
      cases t with
      | nil => simpa [chJoinDot] using ih
      | cons t0 ts =>
        simp only [chJoinDot] at ih ⊢
        rw [List.cons_append, ih]

theorem strJoinDot_strSplitDot (s : String) : strJoinDot (strSplitDot s) = s := by
  apply String.ext
  show chJoinDot (((chSplit '.' s.data).map String.mk).map String.data) = s.data
  rw [List.map_map]
  have : (String.data ∘ String.mk) = id := funext fun l => rfl
  rw [this, List.map_id]
  exact chJoinDot_chSplit s.data

theorem chJoinDot_append (xs ys : List (List Char)) (hx : xs ≠ []) (hy : ys ≠ []) :
    chJoinDot (xs ++ ys) = chJoinDot xs ++ '.' :: chJoinDot ys := by
  induction xs with
  | nil => exact absurd rfl hx
  | cons x xs ih =>
    cases xs with
    | nil =>
      cases ys with
      | nil => exact absurd rfl hy
      | cons y ys' => simp [chJoinDot]
    | cons x' xs' =>
      have h1 : chJoinDot ((x :: x' :: xs') ++ ys)
          = x ++ '.' :: chJoinDot ((x' :: xs') ++ ys) := by
        simp only [List.cons_append]
        rfl
      have h2 : chJoinDot (x :: x' :: xs') = x ++ '.' :: chJoinDot (x' :: xs') := rfl
      rw [h1, ih (by simp), h2]
      simp [List.append_assoc]

theorem chSplit_append_sep (xs ys : List Char) (hx : '.' ∉ xs) :
    chSplit '.' (xs ++ '.' :: ys) = xs :: chSplit '.' ys := by
  induction xs with
  | nil => simp [chSplit]
  | cons c cs ih =>
    have hc : c ≠ '.' := fun h => hx (h ▸ List.mem_cons_self c cs)
    have hcs : '.' ∉ cs := fun h => hx (List.mem_cons_of_mem c h)
    rw [List.cons_append]
    simp only [chSplit]
    rw [if_neg hc, ih hcs]

theorem chSplit_no_sep (xs : List Char) (hx : '.' ∉ xs) : chSplit '.' xs = [xs] := by
  induction xs with
  | nil => rfl
  | cons c cs ih =>
    have hc : c ≠ '.' := fun h => hx (h ▸ List.mem_cons_self c cs)
    have hcs : '.' ∉ cs := fun h => hx (List.mem_cons_of_mem c h)
    simp only [chSplit]
    rw [if_neg hc, ih hcs]

theorem data_append (a b : String) : (a ++ b).data = a.data ++ b.data := rfl

theorem strLen_append (a b : String) : strLen (a ++ b) = strLen a + strLen b := by
  simp [strLen_data, data_append]

theorem strLen_eq_of_equalFold (a b : String) (h : equalFold a b = true) :
    strLen a = strLen b := by
  unfold equalFold at h
  have h' : a.data.map asciiLower = b.data.map asciiLower := by
    exact beq_iff_eq.mp h
  have := congrArg List.length h'
  simpa [List.length_map, strLen_data] using this

theorem ne_empty_iff_data (s : String) : s ≠ "" ↔ s.data ≠ [] := by
  constructor
  · intro h hd
    exact h (String.ext hd)
  · intro h hd
    exact h (congrArg String.data hd)

/-- The name rewriting of decode inverts that of encode on every
non-empty name. -/
theorem decodeName_encodeName (nb n : String) (hn : n ≠ "") :
    decodeName nb (encodeName nb n) = n := by
  by_cases hnb : nb = ""
  · subst hnb
    by_cases hat : n = "@"
    · subst hat
      rfl
    · simp [encodeName, decodeName, hat, hn]
  · by_cases hat : n = "@"
    · subst hat
      simp [encodeName, decodeName, hnb]
    · have henc : encodeName nb n = n ++ "." ++ nb := by
        simp [encodeName, hat, hn, hnb]
      rw [henc]
      have hne : n ++ "." ++ nb ≠ nb := by
        intro h
        have := congrArg strLen h
        rw [strLen_append, strLen_append] at this
        have hl : strLen n ≠ 0 := by
          rw [strLen_data]
          intro h0
          exact (ne_empty_iff_data n).mp hn (List.length_eq_zero.mp h0)
        omega
      have hsuf : hasSuf (n ++ "." ++ nb) ("." ++ nb) = true := by
        unfold hasSuf
        rw [List.isSuffixOf_iff_suffix]
        exact ⟨n.data, by simp [data_append, List.append_assoc]⟩
      have htrim : trimSuf (n ++ "." ++ nb) ("." ++ nb) = n := by
        unfold trimSuf
        rw [if_pos hsuf]
        apply String.ext
        rw [data_strMk]
        have hdata : (n ++ "." ++ nb).data = n.data ++ ("." ++ nb).data := by
          simp [data_append, List.append_assoc]
        rw [hdata, List.length_append]
        have : n.data.length + ("." ++ nb).data.length - ("." ++ nb).data.length
            = n.data.length := by omega
        rw [this]
        exact List.take_left n.data _
      simp only [decodeName]
      rw [if_pos hnb, if_neg hne, htrim, if_neg hn]

/-! ## Integer lemmas -/

theorem durSeconds_exact (d : Int) (h : nsPerSec ∣ d) : durSeconds d * nsPerSec = d := by
  obtain ⟨k, hk⟩ := h
  subst hk
  unfold durSeconds nsPerSec
  rw [Int.mul_comm 1000000000 k, Int.mul_tdiv_cancel _ (by norm_num)]

theorem toUInt8_exact (f : Nat) (h : f < 256) : toUInt8 (f : Int) = f := by
  show (((f : Int)) % 256).toNat = f
  omega

theorem toUInt16_exact (p : Nat) (h : p < 65536) : toUInt16 (p : Int) = p := by
  show (((p : Int)) % 65536).toNat = p
  omega

/-! ## Candidate-guess lemmas -/

theorem guesses_small (domain : String) (h : (strSplitDot domain).length < 2) :
    getBaseDomainNameGuesses domain = [domain] := by
  unfold getBaseDomainNameGuesses
  rw [if_pos h]

theorem guesses_length (domain : String) (h : 2 ≤ (strSplitDot domain).length) :
    (getBaseDomainNameGuesses domain).length = (strSplitDot domain).length - 1 := by
  unfold getBaseDomainNameGuesses
  rw [if_neg (by omega)]
  simp

theorem guesses_get (domain : String) (i : Nat)
    (h2 : 2 ≤ (strSplitDot domain).length) (hi : i < (strSplitDot domain).length - 1) :
    (getBaseDomainNameGuesses domain)[i]? =
      some (strJoinDot ((strSplitDot domain).drop i)) := by
  unfold getBaseDomainNameGuesses
  rw [if_neg (by omega)]
  rw [List.getElem?_map, List.getElem?_range hi]
  rfl

theorem guess_mem_decomp (domain g : String) (hg : g ∈ getBaseDomainNameGuesses domain) :
    g = domain ∨
    ∃ pre : String, domain = pre ++ "." ++ g ∧
      strTake domain (strLen domain - strLen g - 1) = pre := by
  by_cases hlen : (strSplitDot domain).length < 2
  · rw [guesses_small domain hlen] at hg
    left
    simpa using hg
  · unfold getBaseDomainNameGuesses at hg
    rw [if_neg hlen] at hg
    simp only [List.mem_map, List.mem_range] at hg
    obtain ⟨i, hi, hgi⟩ := hg
    by_cases hi0 : i = 0
    · subst hi0
      left
      rw [← hgi]
      simpa using strJoinDot_strSplitDot domain
    · right
      set parts := strSplitDot domain with hparts
      have hplen : 2 ≤ parts.length := by omega
      have htd : parts = parts.take i ++ parts.drop i := (List.take_append_drop i parts).symm
      have htake_ne : parts.take i ≠ [] := by
        have : (parts.take i).length = min i parts.length := List.length_take i parts
        intro hnil
        rw [hnil] at this
        simp at this
        omega
      have hdrop_ne : parts.drop i ≠ [] := by
        have : (parts.drop i).length = parts.length - i := List.length_drop i parts
        intro hnil
        rw [hnil] at this
        simp at this
        omega
      have hmap_ne : ∀ l : List String, l ≠ [] → l.map String.data ≠ [] := by
        intro l hl
        simpa using hl
      set A := chJoinDot ((parts.take i).map String.data) with hA
      set B := chJoinDot ((parts.drop i).map String.data) with hB
      have hjoin : domain.data = A ++ '.' :: B := by
        have hd : domain.data = chJoinDot (parts.map String.data) := by
          have h1 := congrArg String.data (strJoinDot_strSplitDot domain)
          rw [← hparts] at h1
          exact h1.symm
        rw [hd]
        conv_lhs => rw [htd]
        rw [List.map_append, hA, hB]
        exact chJoinDot_append _ _ (hmap_ne _ htake_ne) (hmap_ne _ hdrop_ne)
      have hgdata : g.data = B := by
        rw [← hgi, hB]
        rfl
      refine ⟨strJoinDot (parts.take i), ?_, ?_⟩
      · apply String.ext
        rw [← hgi]
        show domain.data = (A ++ ".".data) ++ B
        rw [hjoin]
        simp
      · have hlen2 : strLen domain - strLen g - 1 = A.length := by
          rw [strLen_data, strLen_data, hjoin, hgdata]
          rw [List.length_append, List.length_cons]
          omega
        apply String.ext
        unfold strTake
        rw [data_strMk, hlen2, hjoin]
        rw [List.take_left]
        rw [hA]
        rfl

/-! ## Zone-match lemmas -/

theorem findZoneMatch_none_iff (gs : List String) (zones : List bunnyZone) :
    findZoneMatch gs zones = none ↔
      ∀ g ∈ gs, ∀ z ∈ zones, ¬(equalFold z.domain g = true) := by
  induction gs with
  | nil => simp [findZoneMatch]
  | cons g gs ih =>
    simp only [findZoneMatch]
    cases hf : List.find? (fun z => equalFold z.domain g) zones with
    | some z =>
      constructor
      · intro h
        exact absurd h (by simp)
      · intro h
        have hz := List.mem_of_find?_eq_some hf
        have hp := List.find?_some hf
        exact absurd (by simpa using hp) (h g (by simp) z hz)
    | none =>
      rw [List.find?_eq_none] at hf
      simp only [ih]
      constructor
      · intro h
        intro g' hg' z hz
        rcases List.mem_cons.mp hg' with h1 | h2
        · subst h1
          exact hf z hz
        · exact h g' h2 z hz
      · intro h g' hg' z hz
        exact h g' (List.mem_cons_of_mem _ hg') z hz

theorem findZoneMatch_some_mem (gs : List String) (zones : List bunnyZone) (z : bunnyZone)
    (h : findZoneMatch gs zones = some z) :
    z ∈ zones ∧ ∃ g ∈ gs, equalFold z.domain g = true := by
  induction gs with
  | nil => simp [findZoneMatch] at h
  | cons g gs ih =>
    simp only [findZoneMatch] at h
    cases hf : List.find? (fun z => equalFold z.domain g) zones with
    | some w =>
      rw [hf] at h
      cases h
      have hp := List.find?_some hf
      exact ⟨List.mem_of_find?_eq_some hf, g, by simp, by simpa using hp⟩
    | none =>
      rw [hf] at h
      obtain ⟨hz, g', hg', he⟩ := ih h
      exact ⟨hz, g', List.mem_cons_of_mem _ hg', he⟩

theorem findZoneMatch_first (gs : List String) (zones : List bunnyZone) (i : Nat) (g : String)
    (hi : gs[i]? = some g)
    (hearlier : ∀ j, j < i → ∀ gj, gs[j]? = some gj →
      ∀ w ∈ zones, ¬(equalFold w.domain gj = true))
    (hmatch : ∃ w ∈ zones, equalFold w.domain g = true) :
    findZoneMatch gs zones = zones.find? (fun z => equalFold z.domain g) := by
  induction i generalizing gs with
  | zero =>
    cases gs with
    | nil => simp at hi
    | cons g0 t =>
      have : g0 = g := by simpa using hi
      subst this
      simp only [findZoneMatch]
      have : (zones.find? (fun z => equalFold z.domain g0)).isSome := by
        rw [List.find?_isSome]
        exact hmatch
      cases hf : zones.find? (fun z => equalFold z.domain g0) with
      | some w => rfl
      | none =>
        rw [hf] at this
        simp at this
  | succ i ih =>
    cases gs with
    | nil => simp at hi
    | cons g0 t =>
      have hf0 : zones.find? (fun z => equalFold z.domain g0) = none := by
        rw [List.find?_eq_none]
        intro w hw
        exact hearlier 0 (Nat.succ_pos i) g0 (by simp) w hw
      simp only [findZoneMatch]
      rw [hf0]
      apply ih
      · simpa using hi
      · intro j hj gj hgj w hw
        exact hearlier (j + 1) (by omega) gj (by simpa using hgj) w hw

theorem attachNameBase_domain (d : String) (w : bunnyZone) :
    (attachNameBase d w).domain = w.domain := by
  unfold attachNameBase
  split <;> rfl

/-! ## Claim C1 -/

/-- C1: for every domain with at least 2 labels, the candidate apex
guesses are join(parts[i:], ".") for i from 0 to len(parts)-2, most
specific first with the bare TLD excluded (for a.b.example.com:
[a.b.example.com, b.example.com, example.com]); for a domain with fewer
than 2 labels the only candidate is the domain itself; and zone
resolution selects the first guess in this order that case-insensitively
equals the apex of some zone in the search result, even if a less
specific guess also matches. -/
theorem claim1_candidate_guesses_and_selection :
    (∀ domain : String, 2 ≤ (strSplitDot domain).length →
      (getBaseDomainNameGuesses domain).length = (strSplitDot domain).length - 1 ∧
      ∀ i : Nat, i < (strSplitDot domain).length - 1 →
        (getBaseDomainNameGuesses domain)[i]? =
          some (strJoinDot ((strSplitDot domain).drop i))) ∧
    (∀ domain : String, (strSplitDot domain).length < 2 →
      getBaseDomainNameGuesses domain = [domain]) ∧
    getBaseDomainNameGuesses "a.b.example.com" =
      ["a.b.example.com", "b.example.com", "example.com"] ∧
    (∀ (domain : String) (zones : List bunnyZone) (i : Nat) (g : String),
      (getBaseDomainNameGuesses domain)[i]? = some g →
      (∀ gj ∈ (getBaseDomainNameGuesses domain).take i,
        ∀ w ∈ zones, ¬(equalFold w.domain gj = true)) →
      (∃ w ∈ zones, equalFold w.domain g = true) →
      resolveZone domain zones =
        (zones.find? (fun z => equalFold z.domain g)).map (attachNameBase domain)) := by
  refine ⟨?_, guesses_small, by decide, ?_⟩
  · intro domain h2
    exact ⟨guesses_length domain h2, fun i hi => guesses_get domain i h2 hi⟩
  · intro domain zones i g hi hearlier hmatch
    unfold resolveZone
    rw [findZoneMatch_first (getBaseDomainNameGuesses domain) zones i g hi ?_ hmatch]
    intro j hj gj hgj w hw
    refine hearlier gj (List.getElem?_mem (?_ : _[j]? = some gj)) w hw
    rw [List.getElem?_take, if_pos hj]
    exact hgj

/-- Witness for C1: with zones for both b.example.com and example.com
present, resolving a.b.example.com picks the more specific b.example.com
(guess index 1), even though example.com also matches. -/
theorem claim1_witness :
    resolveZone "a.b.example.com"
        [{ id := 1, domain := "example.com" }, { id := 2, domain := "b.example.com" }]
      = some { id := 2, domain := "b.example.com", nameBase := "a" } := by
  have h := claim1_candidate_guesses_and_selection.2.2.2 "a.b.example.com"
      [{ id := 1, domain := "example.com" }, { id := 2, domain := "b.example.com" }]
      1 "b.example.com" (by decide) (by decide) (by decide)
  rw [h]
  decide

/-! ## Claim C2 -/

/-- C2: if getZone succeeds for a domain, the resolved zone (name-base
included) is cached under the exact original domain string, and every
subsequent getZone for that domain returns the identical zone from the
cache, leaves the state unchanged, and issues no HTTP request —
whatever a new search would have returned. -/
theorem claim2_resolve_cached (st : ProviderState) (domain : String)
    (resp resp' : List bunnyZone) (z : bunnyZone) (st' : ProviderState) (b : Bool)
    (h : getZone st domain resp = (.ok z, st', b)) :
    lookupZone st'.zones domain = some z ∧
    getZone st' domain resp' = (.ok z, st', false) := by
  unfold getZone at h
  by_cases hd : domain = ""
  · rw [if_pos hd] at h
    simp at h
  · rw [if_neg hd] at h
    cases hc : lookupZone st.zones domain with
    | some w =>
      rw [hc] at h
      obtain ⟨he, hst, _⟩ : Except.ok (ε := String) w = .ok z ∧ st = st' ∧ false = b := by
        simpa [Prod.ext_iff] using h
      have hwz : w = z := by simpa using he
      have hlk : lookupZone st'.zones domain = some z := by
        rw [← hst, ← hwz]
        exact hc
      refine ⟨hlk, ?_⟩
      unfold getZone
      rw [if_neg hd, hlk]
    | none =>
      rw [hc] at h
      cases hr : resolveZone domain resp with
      | none =>
        rw [hr] at h
        simp at h
      | some zone =>
        rw [hr] at h
        obtain ⟨he, hst, _⟩ : Except.ok (ε := String) zone = .ok z ∧
            ({ st with zones := (domain, zone) :: st.zones } : ProviderState) = st' ∧
            true = b := by
          simpa [Prod.ext_iff] using h
        have hze : zone = z := by simpa using he
        have hlk : lookupZone st'.zones domain = some z := by
          rw [← hst, ← hze]
          unfold lookupZone
          rw [List.find?_cons_of_pos _ (by simp)]
          rfl
        refine ⟨hlk, ?_⟩
        unfold getZone
        rw [if_neg hd, hlk]

/-- Witness for C2: a fresh successful resolution of sub.example.com is
cached and replayed without a network call, even against a search oracle
that would now answer differently. -/
theorem claim2_witness :
    lookupZone (ProviderState.zones
        ⟨[("sub.example.com",
           { id := 5, domain := "example.com", nameBase := "sub" })]⟩) "sub.example.com"
      = some { id := 5, domain := "example.com", nameBase := "sub" } ∧
    getZone ⟨[("sub.example.com", { id := 5, domain := "example.com", nameBase := "sub" })]⟩
        "sub.example.com" []
      = (.ok { id := 5, domain := "example.com", nameBase := "sub" },
         ⟨[("sub.example.com", { id := 5, domain := "example.com", nameBase := "sub" })]⟩,
         false) :=
  claim2_resolve_cached ⟨[]⟩ "sub.example.com"
    [{ id := 5, domain := "example.com" }] []
    { id := 5, domain := "example.com", nameBase := "sub" }
    ⟨[("sub.example.com", { id := 5, domain := "example.com", nameBase := "sub" })]⟩
    true (by decide)

/-! ## Claim C5 -/

/-- C5: when resolution matches a zone whose apex is strictly shorter
than the requested domain, the name-base is the requested domain with
the matched apex and the separating dot removed, lower-cased; when the
matched apex equals the requested domain exactly, the name-base is
empty. -/
theorem claim5_namebase (domain : String) (zones : List bunnyZone) (z : bunnyZone)
    (hwf : ∀ w ∈ zones, w.nameBase = "")
    (h : resolveZone domain zones = some z) :
    (strLen z.domain < strLen domain →
      ∃ pre rest : String, domain = pre ++ "." ++ rest ∧
        equalFold z.domain rest = true ∧ z.nameBase = strToLower pre) ∧
    (z.domain = domain → z.nameBase = "") := by
  unfold resolveZone at h
  obtain ⟨w, hw, hz⟩ := Option.map_eq_some'.mp h
  obtain ⟨hwmem, g, hg, hfold⟩ := findZoneMatch_some_mem _ _ _ hw
  have hglen : strLen w.domain = strLen g := strLen_eq_of_equalFold _ _ hfold
  constructor
  · intro hlt
    have hzd : z.domain = w.domain := by
      rw [← hz]
      exact attachNameBase_domain domain w
    rw [hzd] at hlt
    have hcond : strLen domain > strLen w.domain := hlt
    have hnb : z.nameBase
        = strToLower (strTake domain (strLen domain - strLen w.domain - 1)) := by
      rw [← hz]
      unfold attachNameBase
      rw [if_pos hcond]
    rcases guess_mem_decomp domain g hg with hcase | ⟨pre, hdec, hpre⟩
    · exfalso
      have : strLen g = strLen domain := by rw [hcase]
      have hgd : strLen w.domain < strLen domain := hcond
      omega
    · refine ⟨pre, g, hdec, ?_, ?_⟩
      · rw [hzd]
        exact hfold
      · rw [hnb, hglen, hpre]
  · intro heq
    have hzd : z.domain = w.domain := by
      rw [← hz]
      exact attachNameBase_domain domain w
    by_cases hcond : strLen domain > strLen w.domain
    · exfalso
      rw [← heq, hzd] at hcond
      omega
    · have hzval : z = w := by
        rw [← hz]
        unfold attachNameBase
        rw [if_neg hcond]
      rw [hzval]
      exact hwf w hwmem

/-- Witness for C5: resolving Sub.Example.com against a zone with apex
example.com yields the lower-cased leading label path "sub" as the
name-base. -/
theorem claim5_witness :
    ((strLen "example.com" < strLen "Sub.Example.com" →
      ∃ pre rest : String, "Sub.Example.com" = pre ++ "." ++ rest ∧
        equalFold "example.com" rest = true ∧ "sub" = strToLower pre) ∧
     ("example.com" = "Sub.Example.com" → "sub" = "")) :=
  claim5_namebase "Sub.Example.com" [{ id := 9, domain := "example.com" }]
    { id := 9, domain := "example.com", nameBase := "sub" } (by decide) (by decide)

/-! ## Claim C8 -/

/-- C8: on a cache miss, getZone returns an error exactly when the input
domain is empty (invalid argument) or when no candidate guess matches
any zone returned by the search (not found); any successful search match
under a non-empty domain returns a zone without error. -/
theorem claim8_zone_resolution_errors (st : ProviderState) (domain : String)
    (resp : List bunnyZone) (hmiss : lookupZone st.zones domain = none) :
    (domain = "" → (getZone st domain resp).1 = .error "domain is an empty string") ∧
    (domain ≠ "" →
      ((∃ z, (getZone st domain resp).1 = .ok z) ↔
        ∃ g ∈ getBaseDomainNameGuesses domain, ∃ w ∈ resp, equalFold w.domain g = true) ∧
      ((∀ g ∈ getBaseDomainNameGuesses domain, ∀ w ∈ resp,
          ¬(equalFold w.domain g = true)) →
        (getZone st domain resp).1 = .error "zone not found for domain")) := by
  constructor
  · intro hd
    unfold getZone
    rw [if_pos hd]
  · intro hd
    constructor
    · constructor
      · intro ⟨z, hz⟩
        unfold getZone at hz
        rw [if_neg hd, hmiss] at hz
        cases hr : resolveZone domain resp with
        | none =>
          rw [hr] at hz
          simp at hz
        | some zone =>
          unfold resolveZone at hr
          obtain ⟨w, hw, _⟩ := Option.map_eq_some'.mp hr
          obtain ⟨hwmem, g, hg, hfold⟩ := findZoneMatch_some_mem _ _ _ hw
          exact ⟨g, hg, w, hwmem, hfold⟩
      · intro ⟨g, hg, w, hw, hfold⟩
        unfold getZone
        rw [if_neg hd, hmiss]
        cases hr : resolveZone domain resp with
        | none =>
          exfalso
          unfold resolveZone at hr
          rw [Option.map_eq_none'] at hr
          rw [findZoneMatch_none_iff] at hr
          exact hr g hg w hw hfold
        | some zone => exact ⟨zone, rfl⟩
    · intro hnone
      unfold getZone
      rw [if_neg hd, hmiss]
      have hr : resolveZone domain resp = none := by
        unfold resolveZone
        rw [Option.map_eq_none']
        rw [findZoneMatch_none_iff]
        exact hnone
      rw [hr]

/-- Witness for C8: with a search result that contains no matching apex,
resolving other.org fails with the not-found error, while an empty
domain fails with the invalid-argument error. -/
theorem claim8_witness :
    ((getZone ⟨[]⟩ "other.org" [{ id := 1, domain := "example.com" }]).1
        = .error "zone not found for domain") ∧
    ((getZone ⟨[]⟩ "" [{ id := 1, domain := "example.com" }]).1
        = .error "domain is an empty string") :=
  ⟨((claim8_zone_resolution_errors ⟨[]⟩ "other.org"
      [{ id := 1, domain := "example.com" }] (by decide)).2 (by decide)).2 (by decide),
   (claim8_zone_resolution_errors ⟨[]⟩ ""
      [{ id := 1, domain := "example.com" }] (by decide)).1 (by decide)⟩

/-! ## Claim C3 -/

/-- C3: createOrUpdateRecord lists the zone's records and filters them by
encoded (name, type): with zero matches it creates the record; with
exactly one match it updates that record's vendor ID and returns the
input record as-is; with two or more matches it fails and performs no
create, update, or delete mutation. -/
theorem claim3_create_or_update (zone : bunnyZone) (listing : List Bunny.bunnyRecord)
    (record : LibdnsRecord) (resp needle : Bunny.bunnyRecord)
    (henc : zone.bunnyRecord record = .ok needle) :
    (listing.filter (fun r => r.name == needle.name && r.type == needle.type) = [] →
      createOrUpdateRecordM zone listing record resp = createRecordM zone record resp ∧
      (createOrUpdateRecordM zone listing record resp).2 = [.create zone.id needle]) ∧
    (∀ m : Bunny.bunnyRecord,
      listing.filter (fun r => r.name == needle.name && r.type == needle.type) = [m] →
      createOrUpdateRecordM zone listing record resp
        = (.ok record, [.update zone.id m.id needle])) ∧
    (2 ≤ (listing.filter (fun r => r.name == needle.name && r.type == needle.type)).length →
      createOrUpdateRecordM zone listing record resp
        = (.error "unexpectedly found more than 1 record", [])) := by
  have hfilter : zone.filterBunnyRecords listing record
      = .ok (listing.filter (fun r => r.name == needle.name && r.type == needle.type)) := by
    unfold bunnyZone.filterBunnyRecords
    rw [henc]
    rfl
  refine ⟨?_, ?_, ?_⟩
  · intro hnil
    have hcu : createOrUpdateRecordM zone listing record resp
        = createRecordM zone record resp := by
      unfold createOrUpdateRecordM
      rw [hfilter, hnil]
      rfl
    refine ⟨hcu, ?_⟩
    rw [hcu]
    unfold createRecordM
    rw [henc]
    cases zone.libdnsRecord resp <;> rfl
  · intro m hone
    unfold createOrUpdateRecordM
    rw [hfilter, hone]
    have hupd : updateRecordM zone record m.id = (.ok (), [.update zone.id m.id needle]) := by
      unfold updateRecordM
      rw [henc]
    simp only [List.length_cons, List.length_nil]
    rw [if_neg (by omega), if_neg (by omega), hupd]
  · intro hmany
    unfold createOrUpdateRecordM
    rw [hfilter]
    dsimp only
    rw [if_neg (by omega), if_pos (by omega)]

/-- Witness for C3: with exactly one (name, type) match in the listing,
the reconciler issues one update addressed to that record's vendor ID
and returns the input record unchanged. -/
theorem claim3_witness :
    createOrUpdateRecordM { id := 1, domain := "example.com" }
        [{ id := 42, type := 3, ttl := 60, value := "old", name := "test" }]
        (.simple "TXT" "test" 0 "v") { id := 0, type := 3 }
      = (.ok (.simple "TXT" "test" 0 "v"),
         [.update 1 42 { type := 3, ttl := 0, value := "v", name := "test" }]) :=
  (claim3_create_or_update { id := 1, domain := "example.com" }
      [{ id := 42, type := 3, ttl := 60, value := "old", name := "test" }]
      (.simple "TXT" "test" 0 "v") { id := 0, type := 3 }
      { type := 3, ttl := 0, value := "v", name := "test" } (by decide)).2.1
    { id := 42, type := 3, ttl := 60, value := "old", name := "test" } (by decide)

/-! ## Claim C6 -/

/-- C6: deleteRecord lists the zone's records and filters by encoded
(name, type): with zero matches it returns success without issuing any
delete call; with one or more matches it issues exactly one DELETE
addressed to the vendor ID of the first matching record. -/
theorem claim6_delete_by_content (zone : bunnyZone) (listing : List Bunny.bunnyRecord)
    (record : LibdnsRecord) (needle : Bunny.bunnyRecord)
    (henc : zone.bunnyRecord record = .ok needle) :
    (listing.filter (fun r => r.name == needle.name && r.type == needle.type) = [] →
      deleteRecordM zone listing record = (.ok (), [])) ∧
    (∀ (m : Bunny.bunnyRecord) (rest : List Bunny.bunnyRecord),
      listing.filter (fun r => r.name == needle.name && r.type == needle.type) = m :: rest →
      deleteRecordM zone listing record = (.ok (), [.del zone.id m.id])) := by
  have hfilter : zone.filterBunnyRecords listing record
      = .ok (listing.filter (fun r => r.name == needle.name && r.type == needle.type)) := by
    unfold bunnyZone.filterBunnyRecords
    rw [henc]
    rfl
  constructor
  · intro hnil
    unfold deleteRecordM
    rw [hfilter, hnil]
  · intro m rest hcons
    unfold deleteRecordM
    rw [hfilter, hcons]

/-- Witness for C6: a listing with two (name, type) matches yields one
DELETE addressed to the first match's vendor ID, while an empty listing
yields a successful no-op. -/
theorem claim6_witness :
    deleteRecordM { id := 2, domain := "example.com" }
        [{ id := 7, type := 3, ttl := 60, value := "x", name := "test" },
         { id := 8, type := 3, ttl := 60, value := "y", name := "test" }]
        (.simple "TXT" "test" 0 "v")
      = (.ok (), [.del 2 7]) ∧
    deleteRecordM { id := 2, domain := "example.com" } [] (.simple "TXT" "test" 0 "v")
      = (.ok (), []) :=
  ⟨(claim6_delete_by_content { id := 2, domain := "example.com" }
      [{ id := 7, type := 3, ttl := 60, value := "x", name := "test" },
       { id := 8, type := 3, ttl := 60, value := "y", name := "test" }]
      (.simple "TXT" "test" 0 "v")
      { type := 3, ttl := 0, value := "v", name := "test" } (by decide)).2
    { id := 7, type := 3, ttl := 60, value := "x", name := "test" }
    [{ id := 8, type := 3, ttl := 60, value := "y", name := "test" }] (by decide),
   (claim6_delete_by_content { id := 2, domain := "example.com" } []
      (.simple "TXT" "test" 0 "v")
      { type := 3, ttl := 0, value := "v", name := "test" } (by decide)).1 (by decide)⟩

/-! ## Claim C7 -/

theorem strSplitDot_ne_nil (s : String) : strSplitDot s ≠ [] := by
  intro h
  exact chSplit_ne_nil '.' s.data (by simpa [strSplitDot] using h)

/-- Decoding a type-8 (SRV) vendor record is exactly the three-way match
on the ≤ 3 dot-separated parts of its name after name-base stripping. -/
theorem libdnsRecord_srv (zone : bunnyZone) (rec : Bunny.bunnyRecord) (hty : rec.type = 8) :
    zone.libdnsRecord rec =
      match strSplitDotN3 (decodeName zone.nameBase rec.name) with
      | [p0, p1] => .ok (.srv (trimUnderscore p0) (trimUnderscore p1) "@"
          (rec.ttl * nsPerSec) (toUInt16 rec.priority) (toUInt16 rec.weight)
          (toUInt16 rec.port) rec.value)
      | [p0, p1, p2] => .ok (.srv (trimUnderscore p0) (trimUnderscore p1) p2
          (rec.ttl * nsPerSec) (toUInt16 rec.priority) (toUInt16 rec.weight)
          (toUInt16 rec.port) rec.value)
      | _ => .error "name does not contain enough fields" := by
  unfold bunnyZone.libdnsRecord
  rw [hty]
  rfl

theorem strSplitDotN3_length_bounds (s : String) :
    1 ≤ (strSplitDotN3 s).length ∧ (strSplitDotN3 s).length ≤ 3 := by
  unfold strSplitDotN3
  rcases h : strSplitDot s with _ | ⟨p0, _ | ⟨p1, _ | ⟨p2, _ | ⟨p3, rest⟩⟩⟩⟩
  · exact absurd h (strSplitDot_ne_nil s)
  all_goals simp

/-- C7: decoding an SRV vendor record splits its name (after name-base
stripping) on "." into at most 3 parts: fewer than 2 parts fails with a
malformed-name error; exactly 2 parts yields name "@"; 3 parts yields
the third part as the name; leading underscores are stripped from the
service and transport labels (so a record named sip tcp test in
underscore form decodes to service sip, transport tcp, name test). -/
theorem claim7_srv_name_parsing (zone : bunnyZone) (rec : Bunny.bunnyRecord)
    (hty : rec.type = 8) :
    (1 ≤ (strSplitDotN3 (decodeName zone.nameBase rec.name)).length ∧
     (strSplitDotN3 (decodeName zone.nameBase rec.name)).length ≤ 3) ∧
    ((strSplitDotN3 (decodeName zone.nameBase rec.name)).length < 2 →
      zone.libdnsRecord rec = .error "name does not contain enough fields") ∧
    (∀ p0 p1, strSplitDotN3 (decodeName zone.nameBase rec.name) = [p0, p1] →
      zone.libdnsRecord rec = .ok (.srv (trimUnderscore p0) (trimUnderscore p1) "@"
        (rec.ttl * nsPerSec) (toUInt16 rec.priority) (toUInt16 rec.weight)
        (toUInt16 rec.port) rec.value)) ∧
    (∀ p0 p1 p2, strSplitDotN3 (decodeName zone.nameBase rec.name) = [p0, p1, p2] →
      zone.libdnsRecord rec = .ok (.srv (trimUnderscore p0) (trimUnderscore p1) p2
        (rec.ttl * nsPerSec) (toUInt16 rec.priority) (toUInt16 rec.weight)
        (toUInt16 rec.port) rec.value)) ∧
    (zone.nameBase = "" → rec.name = "_sip._tcp.test" →
      zone.libdnsRecord rec = .ok (.srv "sip" "tcp" "test" (rec.ttl * nsPerSec)
        (toUInt16 rec.priority) (toUInt16 rec.weight) (toUInt16 rec.port) rec.value)) := by
  refine ⟨strSplitDotN3_length_bounds _, ?_, ?_, ?_, ?_⟩
  · intro hlen
    rw [libdnsRecord_srv zone rec hty]
    rcases h : strSplitDotN3 (decodeName zone.nameBase rec.name)
        with _ | ⟨p0, _ | ⟨p1, _ | ⟨p2, rest⟩⟩⟩
    · rfl
    · rfl
    · exfalso
      rw [h] at hlen
      simp at hlen
    · exfalso
      rw [h] at hlen
      simp at hlen
      omega
  · intro p0 p1 h
    rw [libdnsRecord_srv zone rec hty, h]
  · intro p0 p1 p2 h
    rw [libdnsRecord_srv zone rec hty, h]
  · intro hnb hname
    rw [libdnsRecord_srv zone rec hty, hnb, hname]
    have hs : strSplitDotN3 (decodeName "" "_sip._tcp.test") = ["_sip", "_tcp", "test"] := by
      decide
    rw [hs]
    dsimp only
    have h1 : trimUnderscore "_sip" = "sip" := by decide
    have h2 : trimUnderscore "_tcp" = "tcp" := by decide
    rw [h1, h2]

/-- Witness for C7: a concrete SRV vendor record decodes with the
underscore labels stripped and the third name part kept. -/
theorem claim7_witness :
    bunnyZone.libdnsRecord { id := 3, domain := "example.com" }
        { id := 11, type := 8, ttl := 120, value := "target.example.com",
          name := "_sip._tcp.test", priority := 1, weight := 2, port := 5060 }
      = .ok (.srv "sip" "tcp" "test" 120000000000 1 2 5060 "target.example.com") := by
  have h := (claim7_srv_name_parsing { id := 3, domain := "example.com" }
      { id := 11, type := 8, ttl := 120, value := "target.example.com",
        name := "_sip._tcp.test", priority := 1, weight := 2, port := 5060 }
      rfl).2.2.2.2 rfl rfl
  rw [h]
  decide

/-! ## Claim C9 -/

/-- A create either issues no call (encode failure) or exactly one create
call carrying the encoding of the record. -/
theorem createRecordM_shape (zone : bunnyZone) (r : LibdnsRecord) (resp0 : Bunny.bunnyRecord) :
    ((createRecordM zone r resp0).2 = [] ∧ ∃ e, (createRecordM zone r resp0).1 = .error e) ∨
    (∃ req, zone.bunnyRecord r = .ok req ∧
      (createRecordM zone r resp0).2 = [.create zone.id req]) := by
  unfold createRecordM
  cases henc : zone.bunnyRecord r with
  | error e => exact .inl ⟨rfl, e, rfl⟩
  | ok req =>
    refine .inr ⟨req, rfl, ?_⟩
    cases zone.libdnsRecord resp0 <;> rfl

/-- A successful create issued exactly the one create call of the
record's encoding. -/
theorem createRecordM_ok_shape (zone : bunnyZone) (r : LibdnsRecord)
    (resp0 : Bunny.bunnyRecord) (v : LibdnsRecord)
    (h : (createRecordM zone r resp0).1 = .ok v) :
    ∃ req, zone.bunnyRecord r = .ok req ∧
      (createRecordM zone r resp0).2 = [.create zone.id req] := by
  rcases createRecordM_shape zone r resp0 with ⟨_, e, he⟩ | hr
  · rw [he] at h
    simp at h
  · exact hr

theorem appendRecordsGo_spec (zone : bunnyZone) (resp : Nat → Bunny.bunnyRecord) :
    ∀ (records : List LibdnsRecord) (k : Nat),
    (appendRecordsGo zone resp k records).2.length ≤ records.length ∧
    (∀ i, i < (appendRecordsGo zone resp k records).2.length →
      ∃ r req, records[i]? = some r ∧ zone.bunnyRecord r = .ok req ∧
        (appendRecordsGo zone resp k records).2[i]? = some (Op.create zone.id req)) ∧
    ((appendRecordsGo zone resp k records).1.2 = none →
      (appendRecordsGo zone resp k records).2.length = records.length ∧
      (appendRecordsGo zone resp k records).1.1.length = records.length) ∧
    (∀ e, (appendRecordsGo zone resp k records).1.2 = some e →
      (appendRecordsGo zone resp k records).1.1 = []) := by
  intro records
  induction records with
  | nil =>
    intro k
    refine ⟨by simp [appendRecordsGo], ?_, ?_, ?_⟩ <;> simp [appendRecordsGo]
  | cons r rs ih =>
    intro k
    rcases hcr : createRecordM zone r (resp k) with ⟨cres, cops⟩
    cases cres with
    | error e =>
      have hgo : appendRecordsGo zone resp k (r :: rs) = (([], some e), cops) := by
        simp only [appendRecordsGo]
        rw [hcr]
      rcases createRecordM_shape zone r (resp k) with ⟨hops, _⟩ | ⟨req, hreq, hops⟩ <;>
        rw [hcr] at hops
      · refine ⟨by rw [hgo, hops]; simp, ?_, ?_, ?_⟩
        · intro i hi
          rw [hgo, hops] at hi
          simp at hi
        · intro hn
          rw [hgo] at hn
          simp at hn
        · intro e' _
          rw [hgo]
      · refine ⟨by rw [hgo, hops]; simp, ?_, ?_, ?_⟩
        · intro i hi
          rw [hgo, hops] at hi ⊢
          simp at hi
          subst hi
          exact ⟨r, req, by simp, hreq, by simp⟩
        · intro hn
          rw [hgo] at hn
          simp at hn
        · intro e' _
          rw [hgo]
    | ok newRec =>
      obtain ⟨req, hreq, hops⟩ := createRecordM_ok_shape zone r (resp k) newRec (by rw [hcr])
      rw [hcr] at hops
      subst hops
      rcases hrec : appendRecordsGo zone resp (k + 1) rs with ⟨⟨rs', e?⟩, ops2⟩
      have ihk := ih (k + 1)
      rw [hrec] at ihk
      obtain ⟨ih1, ih2, ih3, ih4⟩ := ihk
      dsimp only at ih1 ih2 ih3 ih4
      cases e? with
      | some e =>
        have hgo : appendRecordsGo zone resp k (r :: rs)
            = (([], some e), Op.create zone.id req :: ops2) := by
          simp only [appendRecordsGo]
          rw [hcr, hrec]
          rfl
        refine ⟨?_, ?_, ?_, ?_⟩
        · rw [hgo]
          simpa using Nat.succ_le_succ ih1
        · intro i hi
          rw [hgo] at hi ⊢
          simp only [List.length_cons] at hi
          cases i with
          | zero => exact ⟨r, req, by simp, hreq, by simp⟩
          | succ j =>
            obtain ⟨r', req', hr', hreq', hop'⟩ := ih2 j (by omega)
            exact ⟨r', req', by simpa using hr', hreq', by simpa using hop'⟩
        · intro hn
          rw [hgo] at hn
          simp at hn
        · intro e' _
          rw [hgo]
      | none =>
        have hgo : appendRecordsGo zone resp k (r :: rs)
            = ((newRec :: rs', none), Op.create zone.id req :: ops2) := by
          simp only [appendRecordsGo]
          rw [hcr, hrec]
          rfl
        refine ⟨?_, ?_, ?_, ?_⟩
        · rw [hgo]
          simpa using Nat.succ_le_succ ih1
        · intro i hi
          rw [hgo] at hi ⊢
          simp only [List.length_cons] at hi
          cases i with
          | zero => exact ⟨r, req, by simp, hreq, by simp⟩
          | succ j =>
            obtain ⟨r', req', hr', hreq', hop'⟩ := ih2 j (by omega)
            exact ⟨r', req', by simpa using hr', hreq', by simpa using hop'⟩
        · intro _
          obtain ⟨hl1, hl2⟩ := ih3 rfl
          rw [hgo]
          simp only [List.length_cons]
          omega
        · intro e' he'
          rw [hgo] at he'
          simp at he'

/-- C9, amended: AppendRecords creates each input record in input order
(the i-th issued call is a create of the i-th record's encoding, and
creates are the only calls issued — no rollback); it aborts on the first
failure; on success there is one create per record and one returned
record per record; but on failure the returned record list is nil, so
the caller cannot read the number of applied records off the result. -/
theorem claim9_append_records (zone : bunnyZone) (resp : Nat → Bunny.bunnyRecord)
    (records : List LibdnsRecord) :
    (AppendRecords zone resp records).2.length ≤ records.length ∧
    (∀ i, i < (AppendRecords zone resp records).2.length →
      ∃ r req, records[i]? = some r ∧ zone.bunnyRecord r = .ok req ∧
        (AppendRecords zone resp records).2[i]? = some (Op.create zone.id req)) ∧
    ((AppendRecords zone resp records).1.2 = none →
      (AppendRecords zone resp records).2.length = records.length ∧
      (AppendRecords zone resp records).1.1.length = records.length) ∧
    (∀ e, (AppendRecords zone resp records).1.2 = some e →
      (AppendRecords zone resp records).1.1 = []) :=
  appendRecordsGo_spec zone resp records 0

/-- Counterexample to C9 as stated: the first record is created
successfully (one create call is issued, and alone it would have
succeeded), the second record fails to encode, and AppendRecords then
returns an empty record list — not a list of length 1 — so the returned
count does not equal the number of records successfully created. -/
theorem claim9_counterexample :
    (AppendRecords { id := 3, domain := "example.com" }
        (fun _ => { id := 100, type := 3, ttl := 0, value := "v1", name := "a" })
        [.simple "TXT" "a" 0 "v1", .simple "Bogus" "b" 0 "v2"]).1.2.isSome = true ∧
    (AppendRecords { id := 3, domain := "example.com" }
        (fun _ => { id := 100, type := 3, ttl := 0, value := "v1", name := "a" })
        [.simple "TXT" "a" 0 "v1", .simple "Bogus" "b" 0 "v2"]).2
      = [Op.create 3 { type := 3, ttl := 0, value := "v1", name := "a" }] ∧
    (AppendRecords { id := 3, domain := "example.com" }
        (fun _ => { id := 100, type := 3, ttl := 0, value := "v1", name := "a" })
        [.simple "TXT" "a" 0 "v1", .simple "Bogus" "b" 0 "v2"]).1.1.length = 0 ∧
    AppendRecords { id := 3, domain := "example.com" }
        (fun _ => { id := 100, type := 3, ttl := 0, value := "v1", name := "a" })
        [.simple "TXT" "a" 0 "v1"]
      = (([.simple "TXT" "a" 0 "v1"], none),
         [Op.create 3 { type := 3, ttl := 0, value := "v1", name := "a" }]) := by
  decide

/-- Witness for C9: on an all-successful run the amended theorem yields
one create call and one returned record for the single input record. -/
theorem claim9_witness :
    (AppendRecords { id := 6, domain := "example.com" }
        (fun _ => { id := 101, type := 3, ttl := 0, value := "w", name := "t" })
        [.simple "TXT" "t" 0 "w"]).2.length = 1 ∧
    (AppendRecords { id := 6, domain := "example.com" }
        (fun _ => { id := 101, type := 3, ttl := 0, value := "w", name := "t" })
        [.simple "TXT" "t" 0 "w"]).1.1.length = 1 :=
  (claim9_append_records { id := 6, domain := "example.com" }
      (fun _ => { id := 101, type := 3, ttl := 0, value := "w", name := "t" })
      [.simple "TXT" "t" 0 "w"]).2.2.1 (by decide)

/-! ## Claim C10 -/

/-- A delete-by-content succeeds whenever its record encodes. -/
theorem deleteRecordM_ok (zone : bunnyZone) (l : List Bunny.bunnyRecord) (r : LibdnsRecord)
    (br : Bunny.bunnyRecord) (hbr : zone.bunnyRecord r = .ok br) :
    (deleteRecordM zone l r).1 = .ok () := by
  have hf : zone.filterBunnyRecords l r
      = .ok (l.filter (fun x => x.name == br.name && x.type == br.type)) := by
    unfold bunnyZone.filterBunnyRecords
    rw [hbr]
    rfl
  unfold deleteRecordM
  rw [hf]
  dsimp only
  cases l.filter (fun x => x.name == br.name && x.type == br.type) <;> rfl

theorem deleteRecordsGo_none (zone : bunnyZone) (listing : Nat → List Bunny.bunnyRecord) :
    ∀ (records : List LibdnsRecord) (k : Nat),
    (∀ r ∈ records, ∃ br, zone.bunnyRecord r = .ok br) →
    (deleteRecordsGo zone listing k records).1 = none := by
  intro records
  induction records with
  | nil =>
    intro k _
    rfl
  | cons r rs ih =>
    intro k h
    obtain ⟨br, hbr⟩ := h r (by simp)
    rcases hd : deleteRecordM zone (listing k) r with ⟨dres, dops⟩
    have hok : dres = .ok () := by
      have h1 := deleteRecordM_ok zone (listing k) r br hbr
      rw [hd] at h1
      exact h1
    subst hok
    rcases hrec : deleteRecordsGo zone listing (k + 1) rs with ⟨e?, ops'⟩
    have hnone : e? = none := by
      have h2 := ih (k + 1) (fun x hx => h x (List.mem_cons_of_mem _ hx))
      rw [hrec] at h2
      exact h2
    subst hnone
    have hgo : deleteRecordsGo zone listing k (r :: rs) = (none, dops ++ ops') := by
      simp only [deleteRecordsGo]
      rw [hd, hrec]
    rw [hgo]

/-- C10: if every per-record deletion succeeds, DeleteRecords returns
exactly the input record slice (same records, same order, not re-read
from the vendor); on any per-record failure it returns a nil record list
with the error. -/
theorem claim10_delete_returns_input (zone : bunnyZone)
    (listing : Nat → List Bunny.bunnyRecord) (records : List LibdnsRecord) :
    ((∀ r ∈ records, ∃ br, zone.bunnyRecord r = .ok br) →
      (DeleteRecords zone listing records).1 = (some records, none)) ∧
    (∀ e, (DeleteRecords zone listing records).1.2 = some e →
      (DeleteRecords zone listing records).1.1 = none) := by
  constructor
  · intro h
    have hnone := deleteRecordsGo_none zone listing records 0 h
    unfold DeleteRecords
    rcases hgo : deleteRecordsGo zone listing 0 records with ⟨e?, ops⟩
    rw [hgo] at hnone
    simp only at hnone
    subst hnone
    rfl
  · intro e
    unfold DeleteRecords
    rcases hgo : deleteRecordsGo zone listing 0 records with ⟨e?, ops⟩
    cases e? <;> simp

/-- Witness for C10: deleting one TXT record (which encodes fine) returns
the input slice itself with no error. -/
theorem claim10_witness :
    (DeleteRecords { id := 4, domain := "example.com" } (fun _ => [])
        [.simple "TXT" "t" 0 "v"]).1
      = (some [.simple "TXT" "t" 0 "v"], none) :=
  (claim10_delete_returns_input { id := 4, domain := "example.com" } (fun _ => [])
      [.simple "TXT" "t" 0 "v"]).1 (by
    intro r hr
    simp at hr
    subst hr
    exact ⟨{ type := 3, ttl := 0, value := "v", name := "t" }, by decide⟩)

/-! ## Claim C4 -/

theorem strMk_underscore (s : String) : (⟨'_' :: s.data⟩ : String) = "_" ++ s := by
  apply String.ext
  rw [data_strMk, data_append]
  rfl

theorem trimUnderscore_underscore (s : String) : trimUnderscore ("_" ++ s) = s := by
  unfold trimUnderscore
  have hd : ("_" ++ s).data = '_' :: s.data := by
    rw [data_append]
    rfl
  rw [hd]
  exact strMk_data s

theorem srv_rr_name_ne_empty (s tr n : String) :
    ("_" ++ s ++ "._" ++ tr ++ "." ++ n) ≠ "" := by
  rw [ne_empty_iff_data]
  simp [data_append]

/-- Splitting the underscore-form SRV vendor name with SplitN(·, ".", 3)
recovers the two underscore labels and the trailing name whole, provided
the service and transport labels are dot-free. -/
theorem srv_name_split (s tr n : String) (hs : '.' ∉ s.data) (htr : '.' ∉ tr.data) :
    strSplitDotN3 ("_" ++ s ++ "._" ++ tr ++ "." ++ n) = ["_" ++ s, "_" ++ tr, n] := by
  have hdata : ("_" ++ s ++ "._" ++ tr ++ "." ++ n).data
      = ('_' :: s.data) ++ '.' :: (('_' :: tr.data) ++ '.' :: n.data) := by
    simp [data_append]
  have hnotin1 : '.' ∉ '_' :: s.data := by
    intro h
    rcases List.mem_cons.mp h with h1 | h2
    · exact absurd h1 (by decide)
    · exact hs h2
  have hnotin2 : '.' ∉ '_' :: tr.data := by
    intro h
    rcases List.mem_cons.mp h with h1 | h2
    · exact absurd h1 (by decide)
    · exact htr h2
  have hsplit : chSplit '.' (("_" ++ s ++ "._" ++ tr ++ "." ++ n).data)
      = ('_' :: s.data) :: ('_' :: tr.data) :: chSplit '.' n.data := by
    rw [hdata, chSplit_append_sep _ _ hnotin1, chSplit_append_sep _ _ hnotin2]
  unfold strSplitDotN3 strSplitDot
  rw [hsplit]
  rcases hn3 : chSplit '.' n.data with _ | ⟨a, rest⟩
  · exact absurd hn3 (chSplit_ne_nil _ _)
  rcases rest with _ | ⟨b, rest2⟩
  · have ha : a = n.data := by
      have h1 := chJoinDot_chSplit n.data
      rw [hn3] at h1
      simpa [chJoinDot] using h1
    subst ha
    dsimp only [List.map]
    rw [strMk_underscore s, strMk_underscore tr, strMk_data n]
  · have hjoin : strJoinDot (List.map String.mk (a :: b :: rest2)) = n := by
      have h1 := chJoinDot_chSplit n.data
      rw [hn3] at h1
      unfold strJoinDot
      rw [List.map_map]
      have h2 : (String.data ∘ String.mk) = id := funext fun l => rfl
      rw [h2, List.map_id]
      exact String.ext h1
    dsimp only [List.map]
    rw [strMk_underscore s, strMk_underscore tr]
    have h3 := hjoin
    dsimp only [List.map] at h3
    rw [h3]

/-- C4, amended: encode-then-decode is the identity on every supported
generic record whose TTL is a whole number of seconds, whose name is
non-empty, whose numeric fields fit their declared widths, and (for SRV)
whose service and transport labels are dot-free. -/
theorem claim4_roundtrip_amended (zone : bunnyZone) (r : LibdnsRecord)
    (hsupp : supportedRecord r = true)
    (httl : nsPerSec ∣ ttlOf r)
    (hname : nameOk r = true)
    (hsrv : srvOk r = true)
    (hrange : rangeOk r = true) :
    roundTrip zone r = .ok r := by
  rcases r with ⟨t, n, ttl, d⟩ | ⟨n, ttl, f, tag, v⟩ | ⟨n, ttl, p, tgt⟩ |
    ⟨s, tr, n, ttl, p, w, po, tgt⟩
  · have hn : n ≠ "" := by simpa [nameOk] using hname
    have httl' : nsPerSec ∣ ttl := httl
    have ht : t = "A" ∨ t = "AAAA" ∨ t = "CNAME" ∨ t = "NS" ∨ t = "TXT" := by
      simpa [supportedRecord, or_assoc] using hsupp
    rcases ht with rfl | rfl | rfl | rfl | rfl <;>
      · conv_rhs => rw [← decodeName_encodeName zone.nameBase n hn,
          ← durSeconds_exact ttl httl']
        rfl
  · have hn : n ≠ "" := by simpa [nameOk] using hname
    have httl' : nsPerSec ∣ ttl := httl
    have hf : f < 256 := by simpa [rangeOk] using hrange
    conv_rhs => rw [← decodeName_encodeName zone.nameBase n hn,
      ← durSeconds_exact ttl httl', ← toUInt8_exact f hf]
    rfl
  · have hn : n ≠ "" := by simpa [nameOk] using hname
    have httl' : nsPerSec ∣ ttl := httl
    have hp : p < 65536 := by simpa [rangeOk] using hrange
    conv_rhs => rw [← decodeName_encodeName zone.nameBase n hn,
      ← durSeconds_exact ttl httl', ← toUInt16_exact p hp]
    rfl
  · have httl' : nsPerSec ∣ ttl := httl
    obtain ⟨hs, htr⟩ : '.' ∉ s.data ∧ '.' ∉ tr.data := by simpa [srvOk] using hsrv
    obtain ⟨hp, hw, hpo⟩ : p < 65536 ∧ w < 65536 ∧ po < 65536 := by
      simpa [rangeOk, and_assoc] using hrange
    have hrrn : ("_" ++ s ++ "._" ++ tr ++ "." ++ n) ≠ "" := srv_rr_name_ne_empty s tr n
    have hstep : roundTrip zone (.srv s tr n ttl p w po tgt)
        = zone.libdnsRecord
            { type := 8, ttl := durSeconds ttl, value := tgt,
              name := encodeName zone.nameBase ("_" ++ s ++ "._" ++ tr ++ "." ++ n),
              priority := (p : Int), weight := (w : Int), port := (po : Int) } := rfl
    rw [hstep, libdnsRecord_srv _ _ rfl]
    dsimp only
    rw [decodeName_encodeName _ _ hrrn, srv_name_split s tr n hs htr]
    dsimp only
    rw [trimUnderscore_underscore s, trimUnderscore_underscore tr,
      durSeconds_exact _ httl', toUInt16_exact p hp, toUInt16_exact w hw,
      toUInt16_exact po hpo]

/-- Counterexample to C4 as stated: the round trip is not the identity
for (i) a TTL that is not a whole number of seconds (1.5s truncates to
1s), (ii) an empty record name (decoded back as "@"), and (iii) an SRV
service label containing a dot (which shifts the name fields on
decode). -/
theorem claim4_counterexample :
    (supportedRecord (.simple "TXT" "t" 1500000000 "v") = true ∧
      roundTrip { id := 1, domain := "example.com" } (.simple "TXT" "t" 1500000000 "v")
        ≠ .ok (.simple "TXT" "t" 1500000000 "v")) ∧
    (supportedRecord (.simple "TXT" "" 0 "v") = true ∧
      roundTrip { id := 1, domain := "example.com" } (.simple "TXT" "" 0 "v")
        ≠ .ok (.simple "TXT" "" 0 "v")) ∧
    (supportedRecord (.srv "a.b" "tcp" "n" 0 0 0 0 "t") = true ∧
      roundTrip { id := 1, domain := "example.com" } (.srv "a.b" "tcp" "n" 0 0 0 0 "t")
        ≠ .ok (.srv "a.b" "tcp" "n" 0 0 0 0 "t")) := by
  decide

/-- Witness for C4: a fully-populated SRV record under a zone with a
non-empty name-base survives the round trip unchanged. -/
theorem claim4_witness :
    supportedRecord (.srv "sip" "tcp" "test" 120000000000 1 5 5060 "t") = true ∧
    roundTrip { id := 1, domain := "example.com", nameBase := "sub" }
        (.srv "sip" "tcp" "test" 120000000000 1 5 5060 "t")
      = .ok (.srv "sip" "tcp" "test" 120000000000 1 5 5060 "t") :=
  ⟨by decide,
   claim4_roundtrip_amended { id := 1, domain := "example.com", nameBase := "sub" }
     (.srv "sip" "tcp" "test" 120000000000 1 5 5060 "t")
     (by decide) (by decide) (by decide) (by decide) (by decide)⟩

end Bunny
